import Mathlib

/-!
Shallow embedding of the seccomp policy compiler (`filter.go`, `validate.go`
of openSUSE/containers-golang) and proofs about its rule-compilation,
action/condition translation, build and validation entry points.

The policy data model (`types.go`) is not part of the provided sources,
so it is modelled from the specification; the external collaborators
(libseccomp's filter object, its `MakeCondition` constructor and syscall
resolver, and the JSON decoder) are modelled as explicit environment
capabilities, following the specification's description of their contracts.
-/

namespace SeccompSpec

/-- Modelled from the spec: the policy `Action` type of `types.go` (missing
from the provided sources) is a closed enumeration Kill, KillProcess, Errno,
Trap, Allow, Trace, Log; any other value is outside the enumeration and is
represented by the `unknown` constructor carrying the raw string. -/
inductive Action where
  | ActKill
  | ActKillProcess
  | ActErrno
  | ActTrap
  | ActAllow
  | ActTrace
  | ActLog
  | unknown (s : String)
deriving DecidableEq, Repr

/-- Modelled from the spec: the policy `Operator` type of `types.go` (missing
from the provided sources) is a closed enumeration Equal, NotEqual,
GreaterThan, GreaterOrEqual, LessThan, LessOrEqual, MaskedEqual; any other
value is represented by the `unknown` constructor carrying the raw string. -/
inductive Operator where
  | OpEqualTo
  | OpNotEqual
  | OpGreaterThan
  | OpGreaterEqual
  | OpLessThan
  | OpLessEqual
  | OpMaskedEqual
  | unknown (s : String)
deriving DecidableEq, Repr

/-- Modelled from the spec: one argument condition of `types.go` (missing from
the provided sources): `{ index, op, value, valueTwo }`. Go's `uint`/`uint64`
fields are embedded as `Nat`; the values are only passed through, never
computed with, so no wrap-around modelling is needed. -/
structure Arg where
  Index : Nat
  Value : Nat
  ValueTwo : Nat
  Op : Operator
deriving DecidableEq, Repr

/-- Modelled from the spec: one syscall entry of `types.go` (missing from the
provided sources): name, action, optional errno return, ordered argument
conditions. The `Args` elements are Go pointers, hence `Option Arg`. -/
structure Syscall where
  Name : String
  Action : Action
  ErrnoRet : Option Nat
  Args : List (Option Arg)
deriving DecidableEq, Repr

/-- Modelled from the spec: the policy document of `types.go` (missing from
the provided sources): default action, extra architectures (identifier
strings), and the ordered sequence of syscall entries (Go pointers, hence
`Option Syscall`). -/
structure Seccomp where
  DefaultAction : Action
  Architectures : List String
  Syscalls : List (Option Syscall)
deriving DecidableEq, Repr

/-- Concrete libseccomp compare operator (`libseccomp.ScmpCompareOp`),
including the `CompareInvalid` sentinel returned alongside errors. -/
inductive ScmpCompareOp where
  | CompareInvalid
  | CompareEqual
  | CompareNotEqual
  | CompareGreater
  | CompareGreaterEqual
  | CompareLess
  | CompareLessOrEqual
  | CompareMaskedEqual
deriving DecidableEq, Repr

/-- Concrete libseccomp action (`libseccomp.ScmpAction`). `ActErrnoRet` and
`ActTraceRet` model `ActErrno.SetReturnCode(c)` / `ActTrace.SetReturnCode(c)`:
the parameterized actions carrying a 16-bit signed return code. -/
inductive ScmpAction where
  | ActKill
  | ActKillProcess
  | ActTrap
  | ActAllow
  | ActLog
  | ActErrnoRet (code : Int)
  | ActTraceRet (code : Int)
  | ActInvalid
deriving DecidableEq, Repr

/-- Go's `int16(x)` conversion from an unsigned integer: truncate to the low
16 bits and reinterpret in two's complement. -/
def toInt16 (n : Nat) : Int :=
  if n % 65536 < 32768 then ((n % 65536 : Nat) : Int)
  else ((n % 65536 : Nat) : Int) - 65536

/-- Linux errno for "operation not permitted" (`unix.EPERM`). -/
def EPERM : Nat := 1

/-- Concrete libseccomp condition (`libseccomp.ScmpCondition`) as produced by
`libseccomp.MakeCondition`. -/
structure ScmpCondition where
  Argument : Nat
  Op : ScmpCompareOp
  Operand1 : Nat
  Operand2 : Nat
deriving DecidableEq, Repr

/-- Error discriminants for every failure the embedded code can return,
following the spec's error taxonomy (§7). -/
inductive Err where
  | nilSyscall
  | emptySyscallName
  | nilCondition
  | invalidAction (a : Action)
  | invalidOperator (op : Operator)
  | conditionConstruction
  | invalidArch (s : String)
  | decode (msg : String)
deriving DecidableEq, Repr

/-- Outcome of running a piece of the embedded Go code: a value, a returned
error, or a runtime panic (nil-pointer dereference or out-of-bounds access). -/
inductive GoRes (α : Type) where
  | ok : α → GoRes α
  | err : Err → GoRes α
  | panic : GoRes α
deriving DecidableEq, Repr

/-- One rule added to the filter: `AddRule(num, act)` is recorded with
`conds = []`, `AddRuleConditional(num, act, conds)` with the given list. -/
structure Rule where
  syscall : Nat
  action : ScmpAction
  conds : List ScmpCondition
deriving DecidableEq, Repr

/-- The in-progress libseccomp filter object, modelled as the state its
registration calls accumulate: default action, registered extra
architectures, the no-new-privileges bit, and the added rules in order. -/
structure Filter where
  defaultAction : ScmpAction
  architectures : List Nat
  noNewPrivs : Bool
  rules : List Rule
deriving DecidableEq, Repr

/-- Modelled from the spec: the pluggable platform capabilities (§9):
`resolve` is `libseccomp.GetSyscallFromName` (syscall name to number, or
not-found), `archFromString` is `libseccomp.GetArchFromString`. -/
structure Env where
  resolve : String → Option Nat
  archFromString : String → Option Nat

/-- Embeds `libseccomp.MakeCondition(arg, comparison, values...)`: fails for
the invalid comparison sentinel and for an argument index above 5 (Linux
syscalls have at most 6 arguments), per spec §4.2 condition construction. -/
def MakeCondition (arg : Nat) (comparison : ScmpCompareOp) (v v2 : Nat) :
    Except Err ScmpCondition :=
  if comparison = ScmpCompareOp.CompareInvalid then .error .conditionConstruction
  else if 5 < arg then .error .conditionConstruction
  else .ok ⟨arg, comparison, v, v2⟩

/-- Embeds `toCompareOp` of `filter.go`: 1:1 map of the closed operator
enumeration, invalid-operator error otherwise. -/
def toCompareOp (op : Operator) : Except Err ScmpCompareOp :=
  match op with
  | .OpEqualTo => .ok .CompareEqual
  | .OpNotEqual => .ok .CompareNotEqual
  | .OpGreaterThan => .ok .CompareGreater
  | .OpGreaterEqual => .ok .CompareGreaterEqual
  | .OpLessThan => .ok .CompareLess
  | .OpLessEqual => .ok .CompareLessOrEqual
  | .OpMaskedEqual => .ok .CompareMaskedEqual
  | .unknown s => .error (.invalidOperator (.unknown s))

/-- Embeds `toCondition` of `filter.go`: nil check, operator translation,
then `MakeCondition` on the argument's index, operator and values. -/
def toCondition (arg : Option Arg) : Except Err ScmpCondition :=
  match arg with
  | none => .error .nilCondition
  | some a =>
    match toCompareOp a.Op with
    | .error e => .error e
    | .ok op => MakeCondition a.Index op a.Value a.ValueTwo

/-- Embeds `toAction` of `filter.go`: the seven known actions map to concrete
actions; `ActErrno`/`ActTrace` carry `int16(*errnoRet)` when the pointer is
non-nil, else `int16(unix.EPERM)`; anything else is an invalid-action error. -/
def toAction (act : Action) (errnoRet : Option Nat) : Except Err ScmpAction :=
  match act with
  | .ActKill => .ok .ActKill
  | .ActKillProcess => .ok .ActKillProcess
  | .ActErrno =>
    match errnoRet with
    | some r => .ok (.ActErrnoRet (toInt16 r))
    | none => .ok (.ActErrnoRet (toInt16 EPERM))
  | .ActTrap => .ok .ActTrap
  | .ActAllow => .ok .ActAllow
  | .ActTrace =>
    match errnoRet with
    | some r => .ok (.ActTraceRet (toInt16 r))
    | none => .ok (.ActTraceRet (toInt16 EPERM))
  | .ActLog => .ok .ActLog
  | .unknown s => .error (.invalidAction (.unknown s))

/-- Embeds the `for _, cond := range call.Args` loop of `matchSyscall`
(filter.go lines 91-100): translate each condition, increment
`argCounts[cond.Index]` (a Go slice access that panics when out of bounds,
and a pointer dereference that panics on nil), and append the translated
condition. -/
def argsLoop : List (Option Arg) → List Nat → List ScmpCondition →
    GoRes (List Nat × List ScmpCondition)
  | [], argCounts, conditions => .ok (argCounts, conditions)
  | cond :: rest, argCounts, conditions =>
    match toCondition cond with
    | .error e => .err e
    | .ok newCond =>
      match cond with
      | none => .panic
      | some arg =>
        if h : arg.Index < argCounts.length then
          argsLoop rest
            (argCounts.set arg.Index (argCounts.get ⟨arg.Index, h⟩ + 1))
            (conditions ++ [newCond])
        else .panic

/-- Embeds `filter.AddRule(callNum, callAct)`: record an unconditional rule. -/
def addRule (f : Filter) (num : Nat) (act : ScmpAction) : Filter :=
  { f with rules := f.rules ++ [⟨num, act, []⟩] }

/-- Embeds `filter.AddRuleConditional(callNum, callAct, conds)`: record a
conditional rule. -/
def addRuleConditional (f : Filter) (num : Nat) (act : ScmpAction)
    (conds : List ScmpCondition) : Filter :=
  { f with rules := f.rules ++ [⟨num, act, conds⟩] }

/-- Embeds `matchSyscall` of `filter.go`: nil/empty-name checks, syscall
resolution (skip when not found), action translation, then either one
unconditional rule, or — after the condition loop — one rule per condition
when some argument index collides, else a single rule with all conditions. -/
def matchSyscall (env : Env) (filter : Filter) (call : Option Syscall) :
    GoRes Filter :=
  match call with
  | none => .err .nilSyscall
  | some c =>
    if c.Name.length = 0 then .err .emptySyscallName
    else
      match env.resolve c.Name with
      | none => .ok filter
      | some callNum =>
        match toAction c.Action c.ErrnoRet with
        | .error e => .err e
        | .ok callAct =>
          if c.Args.length = 0 then .ok (addRule filter callNum callAct)
          else
            match argsLoop c.Args (List.replicate 6 0) [] with
            | .panic => .panic
            | .err e => .err e
            | .ok (argCounts, conditions) =>
              if argCounts.any (fun count => 1 < count) then
                .ok (conditions.foldl
                  (fun f cond => addRuleConditional f callNum callAct [cond])
                  filter)
              else
                .ok (addRuleConditional filter callNum callAct conditions)

/-- Embeds the architecture loop of `BuildFilter` (filter.go lines 25-34):
resolve each architecture string and register it, failing on unknown ones. -/
def addArchLoop (env : Env) : List String → Filter → GoRes Filter
  | [], filter => .ok filter
  | a :: rest, filter =>
    match env.archFromString a with
    | none => .err (.invalidArch a)
    | some scmpArch =>
      addArchLoop env rest
        { filter with architectures := filter.architectures ++ [scmpArch] }

/-- Embeds the part of `BuildFilter` before the syscall loop: translate the
default action, create the filter (`libseccomp.NewFilter`, whose fresh state
has the no-new-privileges bit set), register extra architectures, and clear
the no-new-privileges bit. -/
def initFilter (env : Env) (p : Seccomp) : GoRes Filter :=
  match toAction p.DefaultAction none with
  | .error e => .err e
  | .ok defaultAction =>
    match addArchLoop env p.Architectures ⟨defaultAction, [], true, []⟩ with
    | .ok f => .ok { f with noNewPrivs := false }
    | .err e => .err e
    | .panic => .panic

/-- Embeds the syscall loop of `BuildFilter` (filter.go lines 42-50): nil
entries are a structural error; each entry is compiled by `matchSyscall` in
declaration order, failing fast. -/
def syscallsLoop (env : Env) : Filter → List (Option Syscall) → GoRes Filter
  | filter, [] => .ok filter
  | filter, call :: rest =>
    match call with
    | none => .err .nilSyscall
    | some c =>
      match matchSyscall env filter (some c) with
      | .ok f => syscallsLoop env f rest
      | .err e => .err e
      | .panic => .panic

/-- Embeds `BuildFilter` of `filter.go`. The argument is the Go pointer
`*Seccomp`: a nil pointer is dereferenced at `profile.DefaultAction` without
a check, which panics. -/
def BuildFilter (env : Env) (profile : Option Seccomp) : GoRes Filter :=
  match profile with
  | none => .panic
  | some p =>
    match initFilter env p with
    | .ok f => syscallsLoop env f p.Syscalls
    | .err e => .err e
    | .panic => .panic

/-- Embeds `ValidateProfile` of `validate.go`, parameterized over the JSON
decoder capability (`json.Unmarshal` into `**Seccomp`: a successful decode
may yield a nil policy pointer, hence `Option Seccomp`). The built filter is
discarded. -/
def ValidateProfile (env : Env) (decode : String → Except String (Option Seccomp))
    (content : String) : GoRes Unit :=
  match decode content with
  | .error msg => .err (.decode msg)
  | .ok profile =>
    match BuildFilter env profile with
    | .ok _ => .ok ()
    | .err e => .err e
    | .panic => .panic

/-- Straight-line translation of the entry's conditions in order: the list of
concrete conditions the loop of `matchSyscall` accumulates, or its first
error. Used to state what `matchSyscall` adds. -/
def mapConds : List (Option Arg) → Except Err (List ScmpCondition)
  | [] => .ok []
  | a :: rest =>
    match toCondition a with
    | .error e => .error e
    | .ok c =>
      match mapConds rest with
      | .error e => .error e
      | .ok cs => .ok (c :: cs)

/-- Number of conditions of the entry that reference argument index `i`. -/
def idxCount : List (Option Arg) → Nat → Nat
  | [], _ => 0
  | none :: rest, i => idxCount rest i
  | some a :: rest, i => (if a.Index = i then 1 else 0) + idxCount rest i

/-- Concrete environment for witnesses: the resolver knows only the syscall
name `read` (number 0) and the architecture string `amd64` (token 1). -/
def envW : Env where
  resolve := fun s => if s = "read" then some 0 else none
  archFromString := fun s => if s = "amd64" then some 1 else none

/-- Concrete fresh filter state for witnesses. -/
def filter0 : Filter := ⟨.ActAllow, [], false, []⟩

/-- Witness condition: argument 0 equals 1. -/
def argA : Arg := ⟨0, 1, 0, .OpEqualTo⟩

/-- Witness condition: argument 0 equals 2. -/
def argB : Arg := ⟨0, 2, 0, .OpEqualTo⟩

/-- Witness condition: argument 1 equals 2. -/
def argC : Arg := ⟨1, 2, 0, .OpEqualTo⟩

/-- Witness entry with two conditions on the same argument index. -/
def cW1 : Syscall := ⟨"read", .ActAllow, none, [some argA, some argB]⟩

/-- Translated conditions of `cW1`. -/
def condsW1 : List ScmpCondition :=
  [⟨0, .CompareEqual, 1, 0⟩, ⟨0, .CompareEqual, 2, 0⟩]

/-- Witness entry with two conditions on distinct argument indices. -/
def cW2 : Syscall := ⟨"read", .ActAllow, none, [some argA, some argC]⟩

/-- Translated conditions of `cW2`. -/
def condsW2 : List ScmpCondition :=
  [⟨0, .CompareEqual, 1, 0⟩, ⟨1, .CompareEqual, 2, 0⟩]

/-- Witness entry whose name the resolver does not know. -/
def cW3 : Syscall := ⟨"frobnicate", .ActAllow, none, []⟩

/-- Witness entry whose name the resolver does not know and whose action,
errno return and argument condition are all invalid. -/
def cW8 : Syscall :=
  ⟨"frobnicate", .unknown "BOGUS", some 7, [some ⟨9, 0, 0, .unknown "OpWeird"⟩]⟩

/-- Witness entry with an empty name. -/
def cEmpty : Syscall := ⟨"", .ActAllow, none, []⟩

/-- Witness policy containing an empty-name entry followed by another entry. -/
def pW5 : Seccomp := ⟨.ActAllow, [], [some cEmpty, some cW3]⟩

/-- Witness policy with an unknown default action. -/
def pW6 : Seccomp := ⟨.unknown "BOGUS", [], []⟩

/-- Witness policy that builds successfully. -/
def pW7 : Seccomp :=
  ⟨.ActAllow, ["amd64"], [some ⟨"read", .ActErrno, some 13, []⟩]⟩

/-- Filter built from `pW7`. -/
def fW7 : Filter := ⟨.ActAllow, [1], false, [⟨0, .ActErrnoRet 13, []⟩]⟩

/-- Witness decoder that decodes every input to `pW7`. -/
def decodeW7 : String → Except String (Option Seccomp) :=
  fun _ => .ok (some pW7)

/-- Witness decoder mirroring `json.Unmarshal` into `**Seccomp` on the input
`null`: the decode succeeds and leaves the policy pointer nil. -/
def decodeW10 : String → Except String (Option Seccomp) :=
  fun s => if s = "null" then .ok none else .error "unexpected document"

/-- Reading back the position just written by `List.set`. -/
theorem getD_set_self : ∀ (l : List Nat) (j v : Nat), j < l.length →
    (l.set j v).getD j 0 = v
  | [], j, v, h => by simp at h
  | a :: l, 0, v, _ => rfl
  | a :: l, j + 1, v, h => by
    simpa [List.getD_cons_succ] using getD_set_self l j v (by simpa using h)

/-- Reading a position other than the one `List.set` wrote. -/
theorem getD_set_ne : ∀ (l : List Nat) (i j v : Nat), i ≠ j →
    (l.set j v).getD i 0 = l.getD i 0
  | [], _, _, _, _ => by simp
  | a :: l, 0, 0, v, h => absurd rfl h
  | a :: l, 0, j + 1, v, _ => rfl
  | a :: l, i + 1, 0, v, _ => rfl
  | a :: l, i + 1, j + 1, v, h => by
    simpa [List.getD_cons_succ] using getD_set_ne l i j v (fun he => h (by omega))

/-- Every position of the all-zero counter slice reads zero. -/
theorem getD_replicate_zero : ∀ (n i : Nat), (List.replicate n (0 : Nat)).getD i 0 = 0
  | 0, _ => by simp
  | n + 1, 0 => rfl
  | n + 1, i + 1 => by
    rw [List.replicate_succ, List.getD_cons_succ]
    exact getD_replicate_zero n i

/-- A condition that translates successfully comes from a non-nil argument
whose index is at most 5 (the `MakeCondition` bound). -/
theorem toCondition_ok_elim {a : Option Arg} {c : ScmpCondition}
    (h : toCondition a = Except.ok c) : ∃ x, a = some x ∧ x.Index ≤ 5 := by
  cases a with
  | none => simp [toCondition] at h
  | some x =>
    refine ⟨x, rfl, ?_⟩
    simp only [toCondition] at h
    cases h2 : toCompareOp x.Op with
    | error e => rw [h2] at h; exact absurd h (by simp)
    | ok op =>
      rw [h2] at h
      have h4 : MakeCondition x.Index op x.Value x.ValueTwo = Except.ok c := h
      unfold MakeCondition at h4
      split_ifs at h4 with h3 h5
      omega

/-- If all conditions of an entry translate, every one of them is non-nil and
references an argument index at most 5. -/
theorem mapConds_ok_mem : ∀ {args : List (Option Arg)} {cs : List ScmpCondition},
    mapConds args = Except.ok cs → ∀ a ∈ args, ∃ x, a = some x ∧ x.Index ≤ 5 := by
  intro args
  induction args with
  | nil => intro cs _ a ha; simp at ha
  | cons a0 rest ih =>
    intro cs h a ha
    simp only [mapConds] at h
    cases h1 : toCondition a0 with
    | error e => rw [h1] at h; exact absurd h (by simp)
    | ok c0 =>
      rw [h1] at h
      cases h2 : mapConds rest with
      | error e => rw [h2] at h; exact absurd h (by simp)
      | ok cs0 =>
        rcases List.mem_cons.mp ha with rfl | hmem
        · exact toCondition_ok_elim h1
        · exact ih h2 a hmem

/-- No translated entry references an argument index beyond 5. -/
theorem idxCount_eq_zero_of_ge : ∀ (args : List (Option Arg)) (i : Nat),
    (∀ a ∈ args, ∃ x, a = some x ∧ x.Index ≤ 5) → 6 ≤ i → idxCount args i = 0
  | [], _, _, _ => rfl
  | none :: rest, i, hmem, hi => by
    simpa [idxCount] using
      idxCount_eq_zero_of_ge rest i
        (fun b hb => hmem b (List.mem_cons_of_mem _ hb)) hi
  | some x :: rest, i, hmem, hi => by
    rcases hmem (some x) (List.mem_cons_self _ _) with ⟨y, hy, hle⟩
    have hxy : x = y := Option.some_inj.mp hy
    have hne : x.Index ≠ i := by subst hxy; omega
    simpa [idxCount, if_neg hne] using
      idxCount_eq_zero_of_ge rest i
        (fun b hb => hmem b (List.mem_cons_of_mem _ hb)) hi

/-- Characterization of the condition loop of `matchSyscall` on the success
path: it returns the translated conditions appended in order, and each
counter holds its initial value plus the number of conditions referencing
that argument index. -/
theorem argsLoop_spec : ∀ (args : List (Option Arg)) (counts : List Nat)
    (acc cs : List ScmpCondition), counts.length = 6 →
    mapConds args = Except.ok cs →
    ∃ counts2, argsLoop args counts acc = .ok (counts2, acc ++ cs) ∧
      counts2.length = 6 ∧
      ∀ i, counts2.getD i 0 = counts.getD i 0 + idxCount args i
  | [], counts, acc, cs, hlen, hok => by
    simp only [mapConds] at hok
    injection hok with h3
    subst h3
    exact ⟨counts, by simp [argsLoop], hlen, fun i => by simp [idxCount]⟩
  | a :: rest, counts, acc, cs, hlen, hok => by
    simp only [mapConds] at hok
    cases h1 : toCondition a with
    | error e => rw [h1] at hok; exact absurd hok (by simp)
    | ok c0 =>
      rw [h1] at hok
      cases h2 : mapConds rest with
      | error e => rw [h2] at hok; exact absurd hok (by simp)
      | ok cs0 =>
        rw [h2] at hok
        injection hok with h3
        subst h3
        rcases toCondition_ok_elim h1 with ⟨arg, rfl, hle⟩
        have hidx : arg.Index < counts.length := by omega
        obtain ⟨counts2, hrec, hlen3, hgetD⟩ :=
          argsLoop_spec rest
            (counts.set arg.Index (counts.get ⟨arg.Index, hidx⟩ + 1))
            (acc ++ [c0]) cs0 (by simp [hlen]) h2
        have hstep : argsLoop (some arg :: rest) counts acc =
            argsLoop rest
              (counts.set arg.Index (counts.get ⟨arg.Index, hidx⟩ + 1))
              (acc ++ [c0]) := by
          simp only [argsLoop, h1]
          rw [dif_pos hidx]
        refine ⟨counts2, ?_, hlen3, ?_⟩
        · rw [hstep, hrec]
          simp
        · intro i
          rw [hgetD i]
          by_cases hij : i = arg.Index
          · rw [hij, getD_set_self counts arg.Index _ hidx]
            have hget : counts.get ⟨arg.Index, hidx⟩ = counts.getD arg.Index 0 := by
              rw [List.getD_eq_getElem counts 0 hidx, List.get_eq_getElem]
            rw [hget]
            simp [idxCount]
            omega
          · rw [getD_set_ne counts i arg.Index _ hij]
            have hne : arg.Index ≠ i := fun he => hij he.symm
            simp [idxCount, if_neg hne]

/-- Characterization of the condition loop of `matchSyscall` on the failure
path: the first condition that fails to translate aborts the loop with that
error. -/
theorem argsLoop_err : ∀ (args : List (Option Arg)) (counts : List Nat)
    (acc : List ScmpCondition) (e : Err), counts.length = 6 →
    mapConds args = Except.error e → argsLoop args counts acc = .err e
  | [], _, _, e, _, hok => by simp [mapConds] at hok
  | a :: rest, counts, acc, e, hlen, hok => by
    simp only [mapConds] at hok
    cases h1 : toCondition a with
    | error e0 =>
      rw [h1] at hok
      have he : e0 = e := by simpa using hok
      subst he
      simp [argsLoop, h1]
    | ok c0 =>
      rw [h1] at hok
      cases h2 : mapConds rest with
      | ok cs0 => rw [h2] at hok; exact absurd hok (by simp)
      | error e2 =>
        rw [h2] at hok
        have he : e2 = e := by simpa using hok
        subst he
        rcases toCondition_ok_elim h1 with ⟨arg, rfl, hle⟩
        have hidx : arg.Index < counts.length := by omega
        have hstep : argsLoop (some arg :: rest) counts acc =
            argsLoop rest
              (counts.set arg.Index (counts.get ⟨arg.Index, hidx⟩ + 1))
              (acc ++ [c0]) := by
          simp only [argsLoop, h1]
          rw [dif_pos hidx]
        rw [hstep]
        exact argsLoop_err rest _ _ e2 (by simp [hlen]) h2

/-- The condition loop never takes a panic branch when started with the
six-entry counter slice: the nil dereference and the out-of-bounds counter
access are both unreachable. -/
theorem argsLoop_ne_panic : ∀ (args : List (Option Arg)) (counts : List Nat)
    (acc : List ScmpCondition), counts.length = 6 →
    argsLoop args counts acc ≠ .panic
  | [], counts, acc, _ => by simp [argsLoop]
  | a :: rest, counts, acc, hlen => by
    cases h1 : toCondition a with
    | error e => simp [argsLoop, h1]
    | ok c0 =>
      rcases toCondition_ok_elim h1 with ⟨arg, rfl, hle⟩
      have hidx : arg.Index < counts.length := by omega
      have hstep : argsLoop (some arg :: rest) counts acc =
          argsLoop rest
            (counts.set arg.Index (counts.get ⟨arg.Index, hidx⟩ + 1))
            (acc ++ [c0]) := by
        simp only [argsLoop, h1]
        rw [dif_pos hidx]
      rw [hstep]
      exact argsLoop_ne_panic rest _ _ (by simp [hlen])

/-- The per-condition rule-addition loop of the colliding branch appends one
single-condition rule per translated condition, in order. -/
theorem foldl_addRuleConditional : ∀ (cs : List ScmpCondition) (f : Filter)
    (num : Nat) (act : ScmpAction),
    cs.foldl (fun g cond => addRuleConditional g num act [cond]) f =
      { f with rules := f.rules ++ cs.map (fun cond => Rule.mk num act [cond]) }
  | [], f, num, act => by simp
  | c :: cs, f, num, act => by
    rw [List.foldl_cons, foldl_addRuleConditional cs _ num act]
    simp [addRuleConditional]

/-- A successfully compiled prefix of the syscall list composes with the
remaining entries: the loop continues from the accumulated filter state. -/
theorem syscallsLoop_append_ok : ∀ (env : Env) (pre : List (Option Syscall))
    (f f1 : Filter) (rest : List (Option Syscall)),
    syscallsLoop env f pre = .ok f1 →
    syscallsLoop env f (pre ++ rest) = syscallsLoop env f1 rest
  | env, [], f, f1, rest, h => by
    have hf : f = f1 := by simpa [syscallsLoop] using h
    subst hf
    rfl
  | env, call :: pre, f, f1, rest, h => by
    rw [List.cons_append]
    cases call with
    | none => simp [syscallsLoop] at h
    | some c =>
      simp only [syscallsLoop] at h ⊢
      cases h2 : matchSyscall env f (some c) with
      | ok f2 =>
        rw [h2] at h
        exact syscallsLoop_append_ok env pre f2 f1 rest h
      | err e =>
        rw [h2] at h
        exact absurd h (by simp)
      | panic =>
        rw [h2] at h
        exact absurd h (by simp)

/-- Claim C1: for every syscall entry whose name resolves and whose args are
non-empty, if some argument index is referenced by two or more conditions,
`matchSyscall` adds exactly one rule per condition, each rule carrying that
single condition (OR semantics), rather than one combined rule. -/
theorem claim_C1 (env : Env) (filter : Filter) (c : Syscall) (num : Nat)
    (act : ScmpAction) (cs : List ScmpCondition)
    (hname : c.Name.length ≠ 0)
    (hres : env.resolve c.Name = some num)
    (hact : toAction c.Action c.ErrnoRet = Except.ok act)
    (hargs : c.Args ≠ [])
    (hconds : mapConds c.Args = Except.ok cs)
    (hcollide : ∃ i, 2 ≤ idxCount c.Args i) :
    matchSyscall env filter (some c) =
      .ok { filter with rules :=
        filter.rules ++ cs.map (fun cond => Rule.mk num act [cond]) } := by
  obtain ⟨counts2, hloop, hlen2, hgetD⟩ :=
    argsLoop_spec c.Args (List.replicate 6 0) [] cs (by simp) hconds
  rw [List.nil_append] at hloop
  obtain ⟨i, hi⟩ := hcollide
  have hmem := mapConds_ok_mem hconds
  have hi6 : i < 6 := by
    by_contra h6
    rw [idxCount_eq_zero_of_ge c.Args i hmem (by omega)] at hi
    omega
  have hgd : counts2.getD i 0 = idxCount c.Args i := by
    rw [hgetD i, getD_replicate_zero 6 i, Nat.zero_add]
  have hany : counts2.any (fun count => 1 < count) = true := by
    rw [List.any_eq_true]
    have hilen : i < counts2.length := by omega
    refine ⟨counts2.get ⟨i, hilen⟩, List.get_mem counts2 i hilen, ?_⟩
    have hgd2 : counts2.get ⟨i, hilen⟩ = counts2.getD i 0 := by
      rw [List.getD_eq_getElem counts2 0 hilen, List.get_eq_getElem]
    rw [hgd2, hgd]
    simp only [decide_eq_true_eq]
    omega
  have hlenargs : ¬ (c.Args.length = 0) := by
    simpa [List.length_eq_zero] using hargs
  simp only [matchSyscall, hres, hact, hloop, if_neg hname, if_neg hlenargs]
  rw [if_pos hany, foldl_addRuleConditional]

/-- Claim C2: for every syscall entry whose name resolves and whose args are
non-empty, if no argument index is referenced by more than one condition,
`matchSyscall` adds exactly one rule carrying all translated conditions
together (AND semantics), in the order the conditions appear in the entry. -/
theorem claim_C2 (env : Env) (filter : Filter) (c : Syscall) (num : Nat)
    (act : ScmpAction) (cs : List ScmpCondition)
    (hname : c.Name.length ≠ 0)
    (hres : env.resolve c.Name = some num)
    (hact : toAction c.Action c.ErrnoRet = Except.ok act)
    (hargs : c.Args ≠ [])
    (hconds : mapConds c.Args = Except.ok cs)
    (hnocollide : ∀ i, idxCount c.Args i ≤ 1) :
    matchSyscall env filter (some c) =
      .ok { filter with rules := filter.rules ++ [Rule.mk num act cs] } := by
  obtain ⟨counts2, hloop, hlen2, hgetD⟩ :=
    argsLoop_spec c.Args (List.replicate 6 0) [] cs (by simp) hconds
  rw [List.nil_append] at hloop
  have hany : counts2.any (fun count => 1 < count) = false := by
    rw [Bool.eq_false_iff]
    intro hb
    rw [List.any_eq_true] at hb
    obtain ⟨x, hxmem, hx⟩ := hb
    rw [List.mem_iff_get] at hxmem
    obtain ⟨⟨n, hn⟩, hget⟩ := hxmem
    have hgd : counts2.get ⟨n, hn⟩ = counts2.getD n 0 := by
      rw [List.getD_eq_getElem counts2 0 hn, List.get_eq_getElem]
    rw [← hget, hgd, hgetD n, getD_replicate_zero 6 n] at hx
    simp only [decide_eq_true_eq] at hx
    have := hnocollide n
    omega
  have hany2 : ¬ ((counts2.any fun count => 1 < count) = true) := by
    simp [hany]
  have hlenargs : ¬ (c.Args.length = 0) := by
    simpa [List.length_eq_zero] using hargs
  simp only [matchSyscall, hres, hact, hloop, if_neg hname, if_neg hlenargs]
  rw [if_neg hany2]
  rfl

/-- Claim C3: for every syscall entry with a non-empty name that the resolver
reports as not found, `matchSyscall` returns success without adding any rule
for that entry, and the build continues with the remaining entries
unaffected. -/
theorem claim_C3 (env : Env) (filter : Filter) (c : Syscall)
    (rest : List (Option Syscall))
    (hname : c.Name.length ≠ 0)
    (hres : env.resolve c.Name = none) :
    matchSyscall env filter (some c) = .ok filter ∧
      syscallsLoop env filter (some c :: rest) = syscallsLoop env filter rest := by
  have h1 : matchSyscall env filter (some c) = .ok filter := by
    simp only [matchSyscall, hres, if_neg hname]
  exact ⟨h1, by simp only [syscallsLoop, h1]⟩

/-- Claim C4: `toAction` on Errno or Trace with an absent return code yields
the parameterized concrete action carrying the platform permission-denied
code (EPERM, whose 16-bit value is 1); with a present return code it carries
exactly that code truncated to 16 bits; Kill, KillProcess, Trap, Allow, Log
map to their fixed concrete actions ignoring any return code. -/
theorem claim_C4 :
    toAction .ActErrno none = .ok (.ActErrnoRet (toInt16 EPERM)) ∧
    toAction .ActTrace none = .ok (.ActTraceRet (toInt16 EPERM)) ∧
    (∀ r : Nat, toAction .ActErrno (some r) = .ok (.ActErrnoRet (toInt16 r))) ∧
    (∀ r : Nat, toAction .ActTrace (some r) = .ok (.ActTraceRet (toInt16 r))) ∧
    (∀ er : Option Nat, toAction .ActKill er = .ok .ActKill) ∧
    (∀ er : Option Nat, toAction .ActKillProcess er = .ok .ActKillProcess) ∧
    (∀ er : Option Nat, toAction .ActTrap er = .ok .ActTrap) ∧
    (∀ er : Option Nat, toAction .ActAllow er = .ok .ActAllow) ∧
    (∀ er : Option Nat, toAction .ActLog er = .ok .ActLog) ∧
    toInt16 EPERM = 1 :=
  ⟨rfl, rfl, fun _ => rfl, fun _ => rfl, fun _ => rfl, fun _ => rfl,
    fun _ => rfl, fun _ => rfl, fun _ => rfl, rfl⟩

/-- Claim C5: for every policy containing a syscall entry with an empty name,
`BuildFilter` fails with the empty-syscall-name error as soon as that entry
is reached, and no rules from entries appearing after the failing one are
added: the result does not depend on the entries after it. -/
theorem claim_C5 (env : Env) (p : Seccomp) (pre rest : List (Option Syscall))
    (c : Syscall) (f0 f1 : Filter)
    (hsys : p.Syscalls = pre ++ some c :: rest)
    (hempty : c.Name.length = 0)
    (hinit : initFilter env p = .ok f0)
    (hpre : syscallsLoop env f0 pre = .ok f1) :
    BuildFilter env (some p) = .err .emptySyscallName := by
  simp only [BuildFilter, hinit]
  rw [hsys, syscallsLoop_append_ok env pre f0 f1 (some c :: rest) hpre]
  simp [syscallsLoop, matchSyscall, hempty]

/-- Claim C6: `toAction` fails with an invalid-action error naming the
offending value for every action outside the closed enumeration; a policy
whose default action is unknown makes `BuildFilter` fail with that error,
before creating the filter or adding any rule. -/
theorem claim_C6 (env : Env) (p : Seccomp) (s : String)
    (hdef : p.DefaultAction = .unknown s) :
    (∀ er : Option Nat,
      toAction (.unknown s) er = .error (.invalidAction (.unknown s))) ∧
    BuildFilter env (some p) = .err (.invalidAction (.unknown s)) := by
  refine ⟨fun _ => rfl, ?_⟩
  simp [BuildFilter, initFilter, hdef, toAction]

/-- Claim C7: for every policy on which `BuildFilter` succeeds,
`ValidateProfile` applied to a text that decodes back to that policy also
succeeds: validation is exactly decode followed by `BuildFilter` with the
result discarded. -/
theorem claim_C7 (env : Env) (decode : String → Except String (Option Seccomp))
    (content : String) (p : Seccomp) (f : Filter)
    (hdec : decode content = .ok (some p))
    (hbuild : BuildFilter env (some p) = .ok f) :
    ValidateProfile env decode content = .ok () := by
  simp [ValidateProfile, hdec, hbuild]

/-- Claim C8: for every syscall entry whose name the resolver reports as not
found, `matchSyscall` returns success regardless of the entry's action, errno
return, or argument conditions: resolution is attempted before action and
condition translation, so an invalid action or invalid operator in such an
entry is never reported as an error. -/
theorem claim_C8 (env : Env) (filter : Filter) (c : Syscall)
    (hname : c.Name.length ≠ 0)
    (hres : env.resolve c.Name = none) :
    matchSyscall env filter (some c) = .ok filter := by
  simp only [matchSyscall, hres, if_neg hname]

/-- Claim C9: the counter access `argCounts[cond.Index]` of `matchSyscall`
(a fixed six-entry slice) is always in bounds: `matchSyscall` always returns
a value or an error, never reaching the out-of-bounds panic, because
`toCondition` rejects every condition whose index exceeds 5 before the
increment is executed. -/
theorem claim_C9 (env : Env) (filter : Filter) (call : Option Syscall) :
    (∃ f, matchSyscall env filter call = .ok f) ∨
      (∃ e, matchSyscall env filter call = .err e) := by
  cases call with
  | none => exact .inr ⟨.nilSyscall, rfl⟩
  | some c =>
    by_cases hname : c.Name.length = 0
    · exact .inr ⟨.emptySyscallName, by simp only [matchSyscall, if_pos hname]⟩
    · cases hres : env.resolve c.Name with
      | none =>
        exact .inl ⟨filter, by simp only [matchSyscall, hres, if_neg hname]⟩
      | some num =>
        cases hact : toAction c.Action c.ErrnoRet with
        | error e =>
          exact .inr ⟨e, by simp only [matchSyscall, hres, hact, if_neg hname]⟩
        | ok act =>
          by_cases hargs : c.Args.length = 0
          · exact .inl ⟨addRule filter num act, by
              simp only [matchSyscall, hres, hact, if_neg hname, if_pos hargs]⟩
          · cases hloop : argsLoop c.Args (List.replicate 6 0) [] with
            | panic => exact absurd hloop (argsLoop_ne_panic c.Args _ [] (by simp))
            | err e =>
              exact .inr ⟨e, by
                simp only [matchSyscall, hres, hact, hloop, if_neg hname,
                  if_neg hargs]⟩
            | ok pr =>
              obtain ⟨counts2, conds⟩ := pr
              by_cases hany : (counts2.any fun count => 1 < count) = true
              · refine .inl ⟨conds.foldl
                  (fun g cond => addRuleConditional g num act [cond]) filter, ?_⟩
                simp only [matchSyscall, hres, hact, hloop, if_neg hname,
                  if_neg hargs]
                rw [if_pos hany]
              · refine .inl ⟨addRuleConditional filter num act conds, ?_⟩
                simp only [matchSyscall, hres, hact, hloop, if_neg hname,
                  if_neg hargs]
                rw [if_neg hany]

/-- Claim C10: `BuildFilter` requires a non-nil policy: it dereferences the
policy pointer without a nil check, so it panics on a nil policy; and for any
input the decoder maps to a successful decode of a nil policy (as
`json.Unmarshal` does for the literal `null`), `ValidateProfile` passes the
nil policy to `BuildFilter` and hits that dereference. -/
theorem claim_C10 (env : Env)
    (decode : String → Except String (Option Seccomp)) (content : String)
    (hdec : decode content = .ok none) :
    BuildFilter env none = .panic ∧
      ValidateProfile env decode content = .panic := by
  refine ⟨rfl, ?_⟩
  simp [ValidateProfile, hdec, BuildFilter]

/-- Witness for claim C1 at the concrete entry `cW1` (two conditions on
argument index 0): two single-condition rules are added. -/
theorem claim_C1_witness :
    (cW1.Name.length ≠ 0 ∧ envW.resolve cW1.Name = some 0 ∧
      toAction cW1.Action cW1.ErrnoRet = Except.ok ScmpAction.ActAllow ∧
      cW1.Args ≠ [] ∧ mapConds cW1.Args = Except.ok condsW1 ∧
      (∃ i, 2 ≤ idxCount cW1.Args i)) ∧
    matchSyscall envW filter0 (some cW1) =
      .ok { filter0 with rules :=
        filter0.rules ++ condsW1.map (fun cond => Rule.mk 0 ScmpAction.ActAllow [cond]) } :=
  ⟨⟨by decide, rfl, rfl, by decide, rfl, ⟨0, by decide⟩⟩,
    claim_C1 envW filter0 cW1 0 ScmpAction.ActAllow condsW1
      (by decide) rfl rfl (by decide) rfl ⟨0, by decide⟩⟩

/-- Witness for claim C2 at the concrete entry `cW2` (conditions on distinct
argument indices 0 and 1): one rule carrying both conditions is added. -/
theorem claim_C2_witness :
    (cW2.Name.length ≠ 0 ∧ envW.resolve cW2.Name = some 0 ∧
      toAction cW2.Action cW2.ErrnoRet = Except.ok ScmpAction.ActAllow ∧
      cW2.Args ≠ [] ∧ mapConds cW2.Args = Except.ok condsW2 ∧
      (∀ i, idxCount cW2.Args i ≤ 1)) ∧
    matchSyscall envW filter0 (some cW2) =
      .ok { filter0 with rules :=
        filter0.rules ++ [Rule.mk 0 ScmpAction.ActAllow condsW2] } :=
  have hno : ∀ i, idxCount cW2.Args i ≤ 1 := by
    intro i
    simp only [cW2, idxCount, argA, argC]
    split_ifs <;> omega
  ⟨⟨by decide, rfl, rfl, by decide, rfl, hno⟩,
    claim_C2 envW filter0 cW2 0 ScmpAction.ActAllow condsW2
      (by decide) rfl rfl (by decide) rfl hno⟩

/-- Witness for claim C3 at the concrete entry `cW3`, whose name the resolver
does not know: the entry is skipped and the loop continues unchanged. -/
theorem claim_C3_witness :
    (cW3.Name.length ≠ 0 ∧ envW.resolve cW3.Name = none) ∧
    (matchSyscall envW filter0 (some cW3) = .ok filter0 ∧
      syscallsLoop envW filter0 (some cW3 :: [some cW1]) =
        syscallsLoop envW filter0 [some cW1]) :=
  ⟨⟨by decide, rfl⟩, claim_C3 envW filter0 cW3 [some cW1] (by decide) rfl⟩

/-- Witness for claim C5 at the concrete policy `pW5`, whose first entry has
an empty name: the build fails with the empty-syscall-name error and the
later entry is never processed. -/
theorem claim_C5_witness :
    (pW5.Syscalls = [] ++ some cEmpty :: [some cW3] ∧ cEmpty.Name.length = 0 ∧
      initFilter envW pW5 = .ok filter0 ∧
      syscallsLoop envW filter0 [] = .ok filter0) ∧
    BuildFilter envW (some pW5) = .err .emptySyscallName :=
  ⟨⟨rfl, rfl, rfl, rfl⟩,
    claim_C5 envW pW5 [] [some cW3] cEmpty filter0 filter0 rfl rfl rfl rfl⟩

/-- Witness for claim C6 at the concrete policy `pW6`, whose default action
is the unknown value BOGUS. -/
theorem claim_C6_witness :
    (pW6.DefaultAction = .unknown "BOGUS") ∧
    ((∀ er : Option Nat, toAction (.unknown "BOGUS") er =
        .error (.invalidAction (.unknown "BOGUS"))) ∧
      BuildFilter envW (some pW6) = .err (.invalidAction (.unknown "BOGUS"))) :=
  ⟨rfl, claim_C6 envW pW6 "BOGUS" rfl⟩

/-- Witness for claim C7 at the concrete policy `pW7`: it builds to `fW7`,
and validating a text that decodes to it succeeds. -/
theorem claim_C7_witness :
    (decodeW7 "doc" = .ok (some pW7) ∧ BuildFilter envW (some pW7) = .ok fW7) ∧
    ValidateProfile envW decodeW7 "doc" = .ok () :=
  ⟨⟨rfl, rfl⟩, claim_C7 envW decodeW7 "doc" pW7 fW7 rfl rfl⟩

/-- Witness for claim C8 at the concrete entry `cW8`, whose name is unknown
to the resolver and whose action, errno return and argument condition are all
invalid: the entry is still skipped without error. -/
theorem claim_C8_witness :
    (cW8.Name.length ≠ 0 ∧ envW.resolve cW8.Name = none) ∧
    matchSyscall envW filter0 (some cW8) = .ok filter0 :=
  ⟨⟨by decide, rfl⟩, claim_C8 envW filter0 cW8 (by decide) rfl⟩

/-- Witness for claim C10 at the concrete decoder `decodeW10` on the input
`null`: the decode succeeds with a nil policy and validation hits the nil
dereference of `BuildFilter`. -/
theorem claim_C10_witness :
    (decodeW10 "null" = .ok none) ∧
    (BuildFilter envW none = .panic ∧
      ValidateProfile envW decodeW10 "null" = .panic) :=
  ⟨rfl, claim_C10 envW decodeW10 "null" rfl⟩

end SeccompSpec
